import Mathlib

/-!
Verification of the parallel fingerprint transformer core of this repository.

The development shallowly embeds src/base.py: the class
FingerprintTransformer with its methods fit, fit_transform, transform and
_validate_input, and the concrete computation unit shared by the
fingerprint implementations (FingerprintGeneratorMixin._generate_fingerprints,
AvalonFingerprint._calculate_fingerprint), which maps a per-molecule
generator over a chunk and wraps the rows densely or sparsely.  The external
calls the code relies on (rdkit MolFromSmiles, numpy concatenate, scipy
sparse vstack, the results[0] list indexing) are modelled by their documented
behaviour.  Machine values are Nat; fallible paths return Except.
-/

set_option linter.unusedVariables false

namespace Skfp

/-- Python exceptions relevant to the embedded code paths.  typeValueError is
the ValueError raised by _validate_input for an entry that is neither a Mol
nor exactly a str; shapeMismatch is the ValueError numpy.concatenate and
scipy.sparse.vstack raise when stacked blocks have inconsistent column counts
(the specification calls it ShapeError); indexOutOfRange is the IndexError
raised by the expression results[0] on an empty list. -/
inductive PyError
  | typeValueError
  | shapeMismatch
  | indexOutOfRange
deriving DecidableEq

/-- Abstract molecule handle (rdkit.Chem.rdchem.Mol).  The core never inspects
it; we carry the originating text only to give distinct handles distinct
identity. -/
structure Mol where
  smiles : String
deriving DecidableEq

/-- Modelled from the spec: the external RDKit parser MolFromSmiles, imported
in src/base.py but implemented outside this repository.  It returns a parsed
handle for a structure-encoding string and None (here none) for an
unparseable one; the specification treats it as an external collaborator, and
its example structures "O", "CC", "[C-]#N", "CC=O" serve as the parseable
set of this model. -/
def MolFromSmiles (s : String) : Option Mol :=
  if s = "O" ∨ s = "CC" ∨ s = "[C-]#N" ∨ s = "CC=O" then some ⟨s⟩ else none

/-- A raw input entry as a Python runtime value, classified exactly by the
checks _validate_input performs: an rdkit Mol instance, an object of exact
runtime type str, an instance of a strict subclass of str (not a Mol), or
anything else. -/
inductive Entry
  | mol (m : Mol)
  | str (s : String)
  | strSub (s : String)
  | other
deriving DecidableEq

/-- Embedding of the per-entry test in _validate_input, line 70 of
src/base.py: isinstance(molecule, Mol) or type(molecule) == str.  In Python,
type(x) == str is exact type equality and is False for every strict subclass
of str, while isinstance(x, Mol) is False for any str subclass instance. -/
def entryAccepted : Entry → Bool
  | .mol _ => true
  | .str _ => true
  | .strSub _ => false
  | .other => false

/-- One element of the comprehension on line 78 of src/base.py:
MolFromSmiles(x) if type(x) == str else x.  The element type is Option Mol
because MolFromSmiles yields None on parse failure and the comprehension
keeps that None; a passed-through Mol is some.  The last two cases are
unreachable when called from _validate_input: the ValueError check rejects
such entries first. -/
def convertEntry : Entry → Option Mol
  | .mol m => some m
  | .str s => MolFromSmiles s
  | .strSub _ => none
  | .other => none

/-- Embedding of FingerprintTransformer._validate_input, src/base.py lines
67-79: raise ValueError unless every entry is a Mol instance or of exact type
str, then map the parse-or-pass-through comprehension over the list. -/
def validate_input (X : List Entry) : Except PyError (List (Option Mol)) :=
  if X.all entryAccepted then .ok (X.map convertEntry)
  else .error .typeValueError

/-- A 2-D numeric result as a list of rows, tagged dense (np.ndarray) or
sparse (scipy.sparse.csr_array); both tags carry the same logical row data. -/
inductive Mat
  | dense (rows : List (List Nat))
  | sparse (rows : List (List Nat))
deriving DecidableEq

/-- Row data of a matrix, dense or sparse. -/
def Mat.rows : Mat → List (List Nat)
  | .dense r => r
  | .sparse r => r

/-- Embedding of the runtime-type test isinstance(·, sparse.csr_array) on
line 50 of src/base.py. -/
def Mat.isSparse : Mat → Bool
  | .dense _ => false
  | .sparse _ => true

/-- Shape precondition of numpy.concatenate and scipy.sparse.vstack along
axis 0 for rectangular blocks: every row across all stacked blocks has one
common length (column count).  Both externals raise ValueError when it
fails. -/
def rowsAligned (css : List (List (List Nat))) : Bool :=
  match css.flatten with
  | [] => true
  | r :: rs => rs.all (fun s => s.length = r.length)

/-- Embedding of the result aggregation, src/base.py lines 50-53.  The
expression results[0] raises IndexError on an empty result list; otherwise
the branch is chosen by isinstance(results[0], sparse.csr_array), and
sparse.vstack(results) respectively np.concatenate(results) stacks the rows
in chunk order, raising a shape error on inconsistent column counts. -/
def aggregate (results : List Mat) : Except PyError Mat :=
  match results with
  | [] => .error .indexOutOfRange
  | r0 :: _ =>
    if r0.isSparse then
      if rowsAligned (results.map Mat.rows) then
        .ok (.sparse (results.map Mat.rows).flatten)
      else .error .shapeMismatch
    else
      if rowsAligned (results.map Mat.rows) then
        .ok (.dense (results.map Mat.rows).flatten)
      else .error .shapeMismatch

/-- Formalisation of the wording of the specification for the aggregator
(section 4.4): the dense or sparse path is determined once by the sparse
configuration parameter alone, never by the runtime type of a chunk result.
Declared only to be compared with the aggregate function of the code. -/
def aggregateBySparseConfig (sparseCfg : Bool) (results : List Mat) :
    Except PyError Mat :=
  match results with
  | [] => .error .indexOutOfRange
  | _ :: _ =>
    if sparseCfg then
      if rowsAligned (results.map Mat.rows) then
        .ok (.sparse (results.map Mat.rows).flatten)
      else .error .shapeMismatch
    else
      if rowsAligned (results.map Mat.rows) then
        .ok (.dense (results.map Mat.rows).flatten)
      else .error .shapeMismatch

/-- Worker for chunksOf, structurally recursive on a fuel that starts at the
list length; every step consumes at least one element when 1 ≤ bs, so the
fuel never runs out on the calls made below, and the definition computes by
rfl.  The zero-fuel arm is unreachable from chunksOf. -/
def chunksOfAux (bs : Nat) : Nat → List α → List (List α)
  | _, [] => []
  | 0, _ :: _ => []
  | fuel + 1, x :: xs => (x :: xs).take bs :: chunksOfAux bs fuel ((x :: xs).drop bs)

/-- Embedding of the chunk generator on lines 43-45 of src/base.py, the
comprehension X[i : i + batch_size] for i in range(0, len(X), batch_size):
consecutive slices of batch_size elements in original order, the last
possibly shorter.  transform always passes batch_size = max(len(X) //
n_jobs, 1) ≥ 1. -/
def chunksOf (bs : Nat) (X : List α) : List (List α) :=
  chunksOfAux bs X.length X

/-- The transformer state: the per-molecule fingerprint computation (the
rdkit generator call GetFingerprintAsNumPy, which the concrete computation
units map over their chunk), the effective worker count n_jobs (already
resolved by joblib effective_n_jobs at construction, hence at least 1 in
every real run), and the sparse output flag (sparse_output of
FingerprintGeneratorMixin).  Parameters are set at construction and never
mutated. -/
structure FingerprintTransformer (α : Type) where
  fp_generator : α → List Nat
  n_jobs : Nat
  sparse : Bool

/-- Embedding of the concrete computation unit shared by the repository's
fingerprints (FingerprintGeneratorMixin._generate_fingerprints and
AvalonFingerprint._calculate_fingerprint): map the per-molecule generator
over the chunk, then wrap the rows as csr_array or np.array according to the
sparse flag. -/
def FingerprintTransformer.calculate_fingerprint (t : FingerprintTransformer α)
    (X : List α) : Mat :=
  if t.sparse then .sparse (X.map t.fp_generator) else .dense (X.map t.fp_generator)

/-- Embedding of FingerprintTransformer.transform, src/base.py lines 32-53:
the serial fast-path when n_jobs == 1 invokes the computation unit once on
the full input; otherwise the input is chunked with batch_size =
max(len(X) // n_jobs, 1), the computation unit runs on each chunk (joblib
Parallel returns results in submission order), and the results are
aggregated.  Note that transform performs no input validation:
_validate_input is never called on this path. -/
def FingerprintTransformer.transform (t : FingerprintTransformer α)
    (X : List α) : Except PyError Mat :=
  if t.n_jobs = 1 then
    .ok (t.calculate_fingerprint X)
  else
    aggregate ((chunksOf (max (X.length / t.n_jobs) 1) X).map t.calculate_fingerprint)

/-- Embedding of fit, src/base.py lines 26-27: return self, nothing else. -/
def FingerprintTransformer.fit (t : FingerprintTransformer α) (X : List α)
    (y : Option (List Nat)) : FingerprintTransformer α :=
  t

/-- Embedding of fit_transform, src/base.py lines 29-30:
return self.transform(X). -/
def FingerprintTransformer.fit_transform (t : FingerprintTransformer α)
    (X : List α) (y : Option (List Nat)) : Except PyError Mat :=
  t.transform X

/-- Tag a row list with the sparse flag the way calculate_fingerprint does. -/
def mkMat (sp : Bool) (rows : List (List Nat)) : Mat :=
  if sp then .sparse rows else .dense rows

/-- An input entry as claim C5 assumes it: an already-parsed handle, or a
string that actually encodes a structure, that is, one the parser accepts. -/
def entryWellFormed : Entry → Bool
  | .mol _ => true
  | .str s => (MolFromSmiles s).isSome
  | .strSub _ => false
  | .other => false

lemma chunksOfAux_nil (bs fuel : Nat) : chunksOfAux bs fuel ([] : List α) = [] := by
  cases fuel <;> rfl

lemma chunksOfAux_cons (bs fuel : Nat) (x : α) (xs : List α) :
    chunksOfAux bs (fuel + 1) (x :: xs) =
      (x :: xs).take bs :: chunksOfAux bs fuel ((x :: xs).drop bs) := by
  rfl

lemma chunksOfAux_flatten (bs : Nat) (hb : 1 ≤ bs) :
    ∀ (fuel : Nat) (X : List α), X.length ≤ fuel →
      (chunksOfAux bs fuel X).flatten = X := by
  intro fuel
  induction fuel with
  | zero =>
    intro X hX
    have hX0 : X = [] := List.eq_nil_of_length_eq_zero (Nat.le_zero.mp hX)
    subst hX0
    rfl
  | succ fuel ih =>
    intro X hX
    cases X with
    | nil => rfl
    | cons x xs =>
      rw [chunksOfAux_cons, List.flatten_cons, ih]
      · exact List.take_append_drop bs (x :: xs)
      · simp only [List.length_drop, List.length_cons] at hX ⊢
        omega

/-- Chunking partitions the input: concatenating the chunks in order gives
back the input list, so no entry is reordered, duplicated or dropped. -/
lemma chunksOf_flatten (bs : Nat) (hb : 1 ≤ bs) (X : List α) :
    (chunksOf bs X).flatten = X :=
  chunksOfAux_flatten bs hb X.length X le_rfl

lemma chunksOf_nil (bs : Nat) : chunksOf bs ([] : List α) = [] := rfl

lemma chunksOf_cons (bs : Nat) (x : α) (xs : List α) :
    chunksOf bs (x :: xs) =
      (x :: xs).take bs :: chunksOfAux bs xs.length ((x :: xs).drop bs) := by
  rfl

lemma chunksOf_ne_nil (bs : Nat) (X : List α) (hX : X ≠ []) :
    chunksOf bs X ≠ [] := by
  cases X with
  | nil => exact absurd rfl hX
  | cons x xs => rw [chunksOf_cons]; exact List.cons_ne_nil _ _

lemma chunksOfAux_mem_length (bs : Nat) (hb : 1 ≤ bs) :
    ∀ (fuel : Nat) (X : List α) (c : List α), X.length ≤ fuel →
      c ∈ chunksOfAux bs fuel X → 1 ≤ c.length ∧ c.length ≤ bs := by
  intro fuel
  induction fuel with
  | zero =>
    intro X c hX hc
    have hX0 : X = [] := List.eq_nil_of_length_eq_zero (Nat.le_zero.mp hX)
    subst hX0
    simp [chunksOfAux_nil] at hc
  | succ fuel ih =>
    intro X c hX hc
    cases X with
    | nil => simp [chunksOfAux_nil] at hc
    | cons x xs =>
      rw [chunksOfAux_cons] at hc
      rcases List.mem_cons.mp hc with hc | hc
      · subst hc
        constructor
        · simp only [List.length_take, List.length_cons]
          omega
        · simpa using List.length_take_le bs (x :: xs)
      · refine ih ((x :: xs).drop bs) c ?_ hc
        simp only [List.length_drop, List.length_cons] at hX ⊢
        omega

lemma chunksOfAux_get? (bs : Nat) (hb : 1 ≤ bs) :
    ∀ (fuel : Nat) (X : List α) (k : Nat), X.length ≤ fuel →
      k * bs < X.length →
      (chunksOfAux bs fuel X).get? k = some ((X.drop (k * bs)).take bs) := by
  intro fuel
  induction fuel with
  | zero =>
    intro X k hX hk
    omega
  | succ fuel ih =>
    intro X k hX hk
    cases X with
    | nil => simp at hk
    | cons x xs =>
      rw [chunksOfAux_cons]
      cases k with
      | zero => simp
      | succ k =>
        have hlen : ((x :: xs).drop bs).length ≤ fuel := by
          simp only [List.length_drop, List.length_cons] at hX ⊢
          omega
        have hk2 : k * bs < ((x :: xs).drop bs).length := by
          simp only [List.length_drop]
          have : (k + 1) * bs = k * bs + bs := by ring
          omega
        rw [List.get?_cons_succ, ih ((x :: xs).drop bs) k hlen hk2,
          List.drop_drop]
        congr 2
        ring

lemma chunksOfAux_size_of_not_last (bs : Nat) (hb : 1 ≤ bs) :
    ∀ (fuel : Nat) (X : List α) (k : Nat) (c : List α), X.length ≤ fuel →
      k + 1 < (chunksOfAux bs fuel X).length →
      (chunksOfAux bs fuel X).get? k = some c → c.length = bs := by
  intro fuel
  induction fuel with
  | zero =>
    intro X k c hX hk
    have hX0 : X = [] := List.eq_nil_of_length_eq_zero (Nat.le_zero.mp hX)
    subst hX0
    simp [chunksOfAux_nil] at hk
  | succ fuel ih =>
    intro X k c hX hk hget
    cases X with
    | nil => simp [chunksOfAux_nil] at hk
    | cons x xs =>
      rw [chunksOfAux_cons] at hk hget
      cases k with
      | zero =>
        simp only [List.get?_cons_zero, Option.some.injEq] at hget
        subst hget
        have hrest : chunksOfAux bs fuel ((x :: xs).drop bs) ≠ [] := by
          intro hnil
          rw [List.length_cons, hnil] at hk
          simp at hk
        have hdrop : (x :: xs).drop bs ≠ [] := by
          intro hnil
          rw [hnil, chunksOfAux_nil] at hrest
          exact hrest rfl
        have hblen : bs < (x :: xs).length := by
          by_contra hle
          exact hdrop (List.drop_eq_nil_of_le (Nat.le_of_not_lt hle))
        simp only [List.length_take]
        omega
      | succ k =>
        refine ih ((x :: xs).drop bs) k c ?_ ?_ hget
        · simp only [List.length_drop, List.length_cons] at hX ⊢
          omega
        · simpa using hk

lemma mkMat_rows (sp : Bool) (rows : List (List Nat)) : (mkMat sp rows).rows = rows := by
  cases sp <;> rfl

lemma mkMat_isSparse (sp : Bool) (rows : List (List Nat)) : (mkMat sp rows).isSparse = sp := by
  cases sp <;> rfl

lemma calculate_fingerprint_eq (t : FingerprintTransformer α) (X : List α) :
    t.calculate_fingerprint X = mkMat t.sparse (X.map t.fp_generator) := by
  cases hsp : t.sparse <;>
    simp [FingerprintTransformer.calculate_fingerprint, mkMat, hsp]

lemma rowsAligned_of_const_width (w : Nat) (css : List (List (List Nat)))
    (h : ∀ rows ∈ css, ∀ r ∈ rows, r.length = w) : rowsAligned css = true := by
  have hmem : ∀ s ∈ css.flatten, s.length = w := by
    intro s hs
    rcases List.mem_flatten.mp hs with ⟨rows, hrows, hsr⟩
    exact h rows hrows s hsr
  unfold rowsAligned
  cases hf : css.flatten with
  | nil => rfl
  | cons r rs =>
    have hr : r.length = w := hmem r (hf ▸ List.mem_cons_self r rs)
    rw [List.all_eq_true]
    intro s hs
    have hsw : s.length = w := hmem s (hf ▸ List.mem_cons_of_mem r hs)
    simp [hsw, hr]

lemma aggregate_uniform (sp : Bool) (results : List Mat) (hne : results ≠ [])
    (htag : ∀ r ∈ results, r.isSparse = sp)
    (hal : rowsAligned (results.map Mat.rows) = true) :
    aggregate results = .ok (mkMat sp (results.map Mat.rows).flatten) := by
  cases results with
  | nil => exact absurd rfl hne
  | cons r0 rs =>
    have h0 : r0.isSparse = sp := htag r0 (List.mem_cons_self r0 rs)
    simp only [List.map_cons] at hal
    cases sp <;> simp [aggregate, h0, hal, mkMat]

/-- Central correctness lemma: with a width-stable per-molecule computation
and a nonempty input (or the serial path), transform returns exactly the
mapped rows in input order, tagged by the sparse flag, for every worker
count. -/
lemma transform_eq_map (t : FingerprintTransformer α) (X : List α) (w : Nat)
    (hw : ∀ x ∈ X, (t.fp_generator x).length = w)
    (hne : X ≠ [] ∨ t.n_jobs = 1) :
    t.transform X = .ok (mkMat t.sparse (X.map t.fp_generator)) := by
  unfold FingerprintTransformer.transform
  by_cases h1 : t.n_jobs = 1
  · rw [if_pos h1, calculate_fingerprint_eq]
  · rw [if_neg h1]
    have hX : X ≠ [] := hne.resolve_right h1
    set bs := max (X.length / t.n_jobs) 1 with hbs
    have hb : 1 ≤ bs := Nat.le_max_right _ 1
    have hflat : (chunksOf bs X).flatten = X := chunksOf_flatten bs hb X
    have hchne : chunksOf bs X ≠ [] := chunksOf_ne_nil bs X hX
    have hresne : (chunksOf bs X).map t.calculate_fingerprint ≠ [] := by
      simpa using hchne
    have htag : ∀ r ∈ (chunksOf bs X).map t.calculate_fingerprint,
        r.isSparse = t.sparse := by
      intro r hr
      rcases List.mem_map.mp hr with ⟨c, _, rfl⟩
      rw [calculate_fingerprint_eq, mkMat_isSparse]
    have hrows : ((chunksOf bs X).map t.calculate_fingerprint).map Mat.rows =
        (chunksOf bs X).map (fun c => c.map t.fp_generator) := by
      rw [List.map_map]
      refine List.map_congr_left ?_
      intro c hc
      simp only [Function.comp_apply]
      rw [calculate_fingerprint_eq, mkMat_rows]
    have hflatrows :
        (((chunksOf bs X).map t.calculate_fingerprint).map Mat.rows).flatten =
          X.map t.fp_generator := by
      rw [hrows, ← List.map_flatten, hflat]
    have hal : rowsAligned
        (((chunksOf bs X).map t.calculate_fingerprint).map Mat.rows) = true := by
      refine rowsAligned_of_const_width w _ ?_
      intro rows hrowsmem r hr
      rw [hrows] at hrowsmem
      rcases List.mem_map.mp hrowsmem with ⟨c, hc, rfl⟩
      rcases List.mem_map.mp hr with ⟨x, hx, rfl⟩
      exact hw x (hflat ▸ List.mem_flatten.mpr ⟨c, hc, hx⟩)
    rw [aggregate_uniform t.sparse _ hresne htag hal, hflatrows]

/-- C9: fit is a no-op returning the transformer itself unchanged, and
fit_transform returns exactly the result of transform on the same input. -/
theorem claim9_fit_is_noop (t : FingerprintTransformer α) (X : List α)
    (y : Option (List Nat)) :
    t.fit X y = t ∧ t.fit_transform X y = t.transform X :=
  ⟨rfl, rfl⟩

/-- C10: an entry whose runtime type is a strict subclass of str (and which
is not a molecule handle) makes _validate_input raise the type-mismatch
ValueError, because the string check uses exact type equality rather than
isinstance. -/
theorem claim10_str_subclass_rejected (X : List Entry) (s : String)
    (h : Entry.strSub s ∈ X) :
    validate_input X = .error .typeValueError := by
  have hacc : X.all entryAccepted = false := by
    rw [List.all_eq_false]
    exact ⟨Entry.strSub s, h, by simp [entryAccepted]⟩
  simp [validate_input, hacc]

/-- Witness for C10 at the concrete input list holding one str-subclass
instance carrying the text "O". -/
theorem claim10_str_subclass_rejected_witness :
    validate_input [Entry.strSub "O"] = .error .typeValueError :=
  claim10_str_subclass_rejected [Entry.strSub "O"] "O" (List.mem_singleton.mpr rfl)

/-- C4, code behaviour at the failing input: _validate_input does not raise
on the unparseable string — the parse failure becomes a silent None in the
returned list — and transform hands the input straight to the computation
unit with no validation step before partitioning or dispatch, on the serial
path and on the parallel path alike. -/
theorem claim4_no_failfast_validation :
    validate_input [Entry.str "not_a_valid_structure!!"] = .ok [none] ∧
    (FingerprintTransformer.mk (fun _ : Entry => [0]) 1 false).transform
        [Entry.str "not_a_valid_structure!!"] = .ok (.dense [[0]]) ∧
    (FingerprintTransformer.mk (fun _ : Entry => [0]) 2 false).transform
        [Entry.str "not_a_valid_structure!!"] = .ok (.dense [[0]]) :=
  ⟨rfl, rfl, rfl⟩

/-- C6, code behaviour on the empty input: with a parallel worker count the
chunk list over the empty input is empty and results[0] raises IndexError,
so transform fails instead of returning a 0-row matrix; the serial path does
return an empty result. -/
theorem claim6_empty_input_crash :
    (FingerprintTransformer.mk (fun n : Nat => [n]) 4 false).transform [] =
      .error .indexOutOfRange ∧
    (FingerprintTransformer.mk (fun n : Nat => [n]) 1 false).transform [] =
      .ok (.dense []) :=
  ⟨rfl, rfl⟩

/-- C5: on a sequence of entries that are each either a structure-encoding
string (one the parser accepts) or a molecule handle, validation succeeds
and returns the converted handles, of the same length and in the same order
as the input, every one of them non-null. -/
theorem claim5_validation_contract (X : List Entry)
    (h : ∀ e ∈ X, entryWellFormed e = true) :
    validate_input X = .ok (X.map convertEntry) ∧
    (X.map convertEntry).length = X.length ∧
    (∀ i : Nat, (X.map convertEntry).get? i = (X.get? i).map convertEntry) ∧
    (∀ y ∈ X.map convertEntry, y.isSome = true) := by
  have hacc : X.all entryAccepted = true := by
    rw [List.all_eq_true]
    intro e he
    have hwf := h e he
    cases e <;> simp [entryAccepted, entryWellFormed] at hwf ⊢
  refine ⟨by simp [validate_input, hacc], List.length_map X convertEntry,
    fun i => List.get?_map convertEntry X i, ?_⟩
  intro y hy
  rcases List.mem_map.mp hy with ⟨e, he, rfl⟩
  have hwf := h e he
  cases e with
  | mol m => rfl
  | str s => simpa [convertEntry, entryWellFormed] using hwf
  | strSub s => simp [entryWellFormed] at hwf
  | other => simp [entryWellFormed] at hwf

/-- Witness for C5 at a concrete two-entry input: one already-parsed handle
and one structure-encoding string. -/
theorem claim5_validation_contract_witness :
    validate_input [Entry.mol ⟨"CC"⟩, Entry.str "O"] =
      .ok ([Entry.mol ⟨"CC"⟩, Entry.str "O"].map convertEntry) ∧
    ([Entry.mol ⟨"CC"⟩, Entry.str "O"].map convertEntry).length =
      ([Entry.mol ⟨"CC"⟩, Entry.str "O"] : List Entry).length ∧
    (∀ i : Nat, ([Entry.mol ⟨"CC"⟩, Entry.str "O"].map convertEntry).get? i =
      (([Entry.mol ⟨"CC"⟩, Entry.str "O"] : List Entry).get? i).map convertEntry) ∧
    (∀ y ∈ [Entry.mol ⟨"CC"⟩, Entry.str "O"].map convertEntry, y.isSome = true) :=
  claim5_validation_contract [Entry.mol ⟨"CC"⟩, Entry.str "O"] (by decide)

/-- C8: when the per-chunk outputs handed to the aggregation step have
inconsistent column counts — any list of chunk outputs, dense or sparse,
holding two rows of different lengths anywhere across its chunks — the
aggregation fails with the shape-mismatch error, not with success and not
with a different error.  Both the np.concatenate branch and the
sparse.vstack branch are covered. -/
theorem claim8_shape_mismatch (results : List Mat) (r1 r2 : List Nat)
    (h1 : r1 ∈ (results.map Mat.rows).flatten)
    (h2 : r2 ∈ (results.map Mat.rows).flatten)
    (hw : r1.length ≠ r2.length) :
    aggregate results = .error .shapeMismatch := by
  have hal : rowsAligned (results.map Mat.rows) = false := by
    unfold rowsAligned
    cases hf : (results.map Mat.rows).flatten with
    | nil =>
      rw [hf] at h1
      simp at h1
    | cons r rs =>
      rw [hf] at h1 h2
      rw [List.all_eq_false]
      by_cases hr1 : r1.length = r.length
      · have hr2 : r2.length ≠ r.length := fun h => hw (hr1.trans h.symm)
        have hmem : r2 ∈ rs := by
          rcases List.mem_cons.mp h2 with h | h
          · exact absurd (congrArg List.length h) hr2
          · exact h
        exact ⟨r2, hmem, by simpa using hr2⟩
      · have hmem : r1 ∈ rs := by
          rcases List.mem_cons.mp h1 with h | h
          · exact absurd (congrArg List.length h) hr1
          · exact h
        exact ⟨r1, hmem, by simpa using hr1⟩
  cases results with
  | nil => simp at h1
  | cons r0 rs =>
    simp only [List.map_cons] at hal
    cases h0 : r0.isSparse <;> simp [aggregate, h0, hal]

/-- Witness for C8 at two concrete one-row sparse chunks of widths 1 and 2,
exercising the sparse.vstack branch. -/
theorem claim8_shape_mismatch_witness :
    aggregate [Mat.sparse [[0]], Mat.sparse [[0, 0]]] = .error .shapeMismatch :=
  claim8_shape_mismatch [Mat.sparse [[0]], Mat.sparse [[0, 0]]] [0] [0, 0]
    (by decide) (by decide) (by decide)

/-- C1: for every width-stable computation unit and every effective worker
count, row i of the matrix returned by transform X is the fingerprint of
input entry i — chunking neither reorders, duplicates, nor drops rows — and
it equals row 0 of the single-worker transform of the singleton list holding
entry i. -/
theorem claim1_order_preservation (t : FingerprintTransformer α) (X : List α)
    (i w : Nat) (hw : ∀ x ∈ X, (t.fp_generator x).length = w)
    (hi : i < X.length) (hW : 1 ≤ t.n_jobs) :
    ∃ M M0 : Mat,
      t.transform X = .ok M ∧
      ({ t with n_jobs := 1 } : FingerprintTransformer α).transform
        [X.get ⟨i, hi⟩] = .ok M0 ∧
      M.rows.get? i = some (t.fp_generator (X.get ⟨i, hi⟩)) ∧
      M0.rows.get? 0 = some (t.fp_generator (X.get ⟨i, hi⟩)) := by
  have hne : X ≠ [] := by
    intro h
    rw [h] at hi
    simp at hi
  have hM := transform_eq_map t X w hw (Or.inl hne)
  have hw1 : ∀ x ∈ [X.get ⟨i, hi⟩],
      (({ t with n_jobs := 1 } : FingerprintTransformer α).fp_generator x).length = w := by
    intro x hx
    rw [List.mem_singleton] at hx
    subst hx
    exact hw _ (X.get_mem i hi)
  have hM0 := transform_eq_map { t with n_jobs := 1 } [X.get ⟨i, hi⟩] w hw1 (Or.inr rfl)
  refine ⟨_, _, hM, hM0, ?_, ?_⟩
  · rw [mkMat_rows, List.get?_map, List.get?_eq_get hi]
    rfl
  · rw [mkMat_rows]
    rfl

/-- Witness for C1: a three-worker transform of a four-entry input, row 2
against the single-worker transform of its singleton. -/
theorem claim1_order_preservation_witness :
    ∃ M M0 : Mat,
      (FingerprintTransformer.mk (fun n : Nat => [n]) 3 true).transform
        [10, 20, 30, 40] = .ok M ∧
      (FingerprintTransformer.mk (fun n : Nat => [n]) 1 true).transform
        [30] = .ok M0 ∧
      M.rows.get? 2 = some [30] ∧
      M0.rows.get? 0 = some [30] :=
  claim1_order_preservation (FingerprintTransformer.mk (fun n : Nat => [n]) 3 true)
    [10, 20, 30, 40] 2 1 (fun x _ => rfl) (by decide) (by decide)

/-- C2: for a deterministic, width-stable computation unit, the serial
fast-path (n_jobs = 1, one invocation on the full input) produces output
identical to transform with n_jobs = 4 on the same input, for any input of
length at least 4. -/
theorem claim2_parallelism_invariance (g : α → List Nat) (sp : Bool)
    (X : List α) (w : Nat) (hw : ∀ x ∈ X, (g x).length = w)
    (h4 : 4 ≤ X.length) :
    (FingerprintTransformer.mk g 1 sp).transform X =
      (FingerprintTransformer.mk g 4 sp).transform X := by
  have hne : X ≠ [] := by
    intro h
    rw [h] at h4
    simp at h4
  rw [transform_eq_map (FingerprintTransformer.mk g 1 sp) X w hw (Or.inr rfl),
    transform_eq_map (FingerprintTransformer.mk g 4 sp) X w hw (Or.inl hne)]

/-- Witness for C2 at a concrete four-entry input, dense configuration. -/
theorem claim2_parallelism_invariance_witness :
    (FingerprintTransformer.mk (fun n : Nat => [n]) 1 false).transform [1, 2, 3, 4] =
      (FingerprintTransformer.mk (fun n : Nat => [n]) 4 false).transform [1, 2, 3, 4] :=
  claim2_parallelism_invariance (fun n : Nat => [n]) false [1, 2, 3, 4] 1
    (fun x _ => rfl) (by decide)

/-- C3: for an input of length N and effective worker count W, transform's
chunking with batch_size = max(N / W, 1) partitions the input exactly:
concatenating the chunks gives back the input (no gaps, overlaps or
reordering), chunk k is the consecutive slice starting at k * batch_size,
every chunk is nonempty and at most batch_size long, every chunk but the
last is exactly batch_size long, and a chunk count exceeding W is accepted —
transform still returns a result rather than an error. -/
theorem claim3_chunk_partition (W : Nat) (X : List α) (hW : 1 ≤ W) :
    ((chunksOf (max (X.length / W) 1) X).flatten = X) ∧
    (∀ k, k * max (X.length / W) 1 < X.length →
      (chunksOf (max (X.length / W) 1) X).get? k =
        some ((X.drop (k * max (X.length / W) 1)).take (max (X.length / W) 1))) ∧
    (∀ c ∈ chunksOf (max (X.length / W) 1) X,
      1 ≤ c.length ∧ c.length ≤ max (X.length / W) 1) ∧
    (∀ k c, k + 1 < (chunksOf (max (X.length / W) 1) X).length →
      (chunksOf (max (X.length / W) 1) X).get? k = some c →
      c.length = max (X.length / W) 1) ∧
    (∀ (g : α → List Nat) (w : Nat) (sp : Bool),
      (∀ x ∈ X, (g x).length = w) → X ≠ [] →
      ∃ M, (FingerprintTransformer.mk g W sp).transform X = .ok M) := by
  have hb : 1 ≤ max (X.length / W) 1 := Nat.le_max_right _ 1
  refine ⟨chunksOf_flatten _ hb X,
    fun k hk => chunksOfAux_get? _ hb X.length X k le_rfl hk,
    fun c hc => chunksOfAux_mem_length _ hb X.length X c le_rfl hc,
    fun k c hk hget => chunksOfAux_size_of_not_last _ hb X.length X k c le_rfl hk hget,
    ?_⟩
  intro g w sp hwX hne
  exact ⟨_, transform_eq_map (FingerprintTransformer.mk g W sp) X w hwX (Or.inl hne)⟩

/-- Witness for C3 at N = 5 and W = 2: batch_size is 2, the three chunks
(one more than W) concatenate back to the input, and the chunk count 3
exceeds the worker count 2. -/
theorem claim3_chunk_partition_witness :
    ((chunksOf (max (([10, 20, 30, 40, 50] : List Nat).length / 2) 1)
        [10, 20, 30, 40, 50]).flatten = [10, 20, 30, 40, 50]) ∧
    (chunksOf (max (([10, 20, 30, 40, 50] : List Nat).length / 2) 1)
        [10, 20, 30, 40, 50]).length = 3 ∧
    2 < (chunksOf (max (([10, 20, 30, 40, 50] : List Nat).length / 2) 1)
        [10, 20, 30, 40, 50]).length :=
  ⟨(claim3_chunk_partition 2 [10, 20, 30, 40, 50] (by decide)).1, rfl, by decide⟩

/-- C7 counterexample: the aggregation of lines 50-53 never consults the
sparse configuration parameter — it inspects the runtime type of
results[0].  Handed a dense chunk output under a sparse configuration, the
code takes the dense branch, while the configuration-determined choice the
claim describes (aggregateBySparseConfig) would take the sparse one. -/
theorem claim7_runtime_type_counterexample :
    aggregate [Mat.dense [[1]]] = .ok (.dense [[1]]) ∧
    aggregateBySparseConfig true [Mat.dense [[1]]] = .ok (.sparse [[1]]) ∧
    (Except.ok (Mat.dense [[1]]) : Except PyError Mat) ≠ .ok (.sparse [[1]]) := by
  refine ⟨rfl, rfl, ?_⟩
  intro h
  exact Mat.noConfusion (Except.ok.inj h)

/-- C7 amended: the aggregator's dense/sparse choice is inferred from the
runtime type of the first chunk's output; whenever every chunk's output type
agrees with the sparse configuration — as holds for the repository's
computation units — this choice coincides with the configuration-determined
one, and sparse chunks are stacked into a sparse result, never densified. -/
theorem claim7_aggregator_choice (sp : Bool) (results : List Mat)
    (hne : results ≠ []) (htag : ∀ r ∈ results, r.isSparse = sp) :
    aggregate results = aggregateBySparseConfig sp results ∧
    (sp = true → ∀ M : Mat, aggregate results = .ok M → M.isSparse = true) := by
  cases results with
  | nil => exact absurd rfl hne
  | cons r0 rs =>
    have h0 : r0.isSparse = sp := htag r0 (List.mem_cons_self r0 rs)
    refine ⟨?_, ?_⟩
    · cases sp <;> simp [aggregate, aggregateBySparseConfig, h0]
    · intro hsp M hM
      subst hsp
      cases hal : rowsAligned (List.map Mat.rows (r0 :: rs)) with
      | true =>
        simp only [aggregate, h0, if_true, hal] at hM
        rw [← Except.ok.inj hM]
        rfl
      | false =>
        simp only [aggregate, h0, if_true, hal] at hM
        cases hM

/-- Witness for C7 amended, at one sparse chunk under the sparse
configuration. -/
theorem claim7_aggregator_choice_witness :
    aggregate [Mat.sparse [[2]]] = aggregateBySparseConfig true [Mat.sparse [[2]]] ∧
    (true = true → ∀ M : Mat, aggregate [Mat.sparse [[2]]] = .ok M →
      M.isSparse = true) :=
  claim7_aggregator_choice true [Mat.sparse [[2]]] (by simp) (by decide)

end Skfp
